import Mathlib

/-!
Verification of the NetCDF SST conversion pipeline.

The repository has three scripts:
  * `process_data.py`    — NetCDF → flat uint8 binary + metadata JSON;
  * `convert_to_json.py` — NetCDF → JSON arrays (int-encoded) + metadata JSON;
  * `sst_animated_map.py`— download + Plotly HTML animation.

We embed the array transformations shallowly: floating-point cell values are
modelled as exact rationals (`ℚ`), a missing (NaN) cell as `Option.none`,
`numpy` arrays as `List`s, and fancy indexing via `List.getD`.
`np.argsort` is modelled as the stable sort of indices by value (ties broken
by index); on pairwise-distinct keys — the only situation the claims consider
— every correct sort produces this same unique permutation, so the model is
exact there.
-/

namespace NetCDF

/-- `SST_MIN` from `process_data.py`. -/
def SST_MIN : ℚ := -2

/-- `SST_MAX` from `process_data.py`. -/
def SST_MAX : ℚ := 32

/-- `SST_RANGE = SST_MAX - SST_MIN` from `process_data.py`. -/
def SST_RANGE : ℚ := SST_MAX - SST_MIN

/-- `NODATA` sentinel from `process_data.py`. -/
def NODATA : ℕ := 255

/-- `np.clip(x, lo, hi)` for scalars: `min (max x lo) hi`. -/
def npClip (x lo hi : ℚ) : ℚ := min (max x lo) hi

/-- The per-cell uint8 encoder of `process_data.py` (lines 107–108):
`normalized = (v - SST_MIN) / SST_RANGE`, then
`np.clip(normalized * 254, 0, 254).astype(np.uint8)`.
The `uint8` cast truncates toward zero; after the clip the value is in
`[0, 254]`, so the cast is `Int.floor` followed by `Int.toNat`. -/
def encodeVal (v : ℚ) : ℕ :=
  (Int.floor (npClip ((v - SST_MIN) / SST_RANGE * 254) 0 254)).toNat

/-- A source cell: `none` models a NaN (missing / land) sample. -/
abbrev Cell := Option ℚ

/-- One output cell of `process_data.py` (lines 106–109): NaN cells are
overwritten with the sentinel `NODATA = 255`, others take `encodeVal`. -/
def encodeCell : Cell → ℕ
  | none => NODATA
  | some v => encodeVal v

/-- The decoder named by the spec: `value/254*34 - 2`. -/
def decodeVal (u : ℕ) : ℚ := (u : ℚ) / 254 * 34 - 2

/-- `np.round` ties-to-even rounding, on exact rationals. -/
def roundHalfEven (x : ℚ) : ℤ :=
  if x - Int.floor x < 1/2 then Int.floor x
  else if x - Int.floor x = 1/2 then
    (if Int.floor x % 2 = 0 then Int.floor x else Int.floor x + 1)
  else Int.floor x + 1

/-- One output cell of `convert_to_json.py` (line 74):
`np.where(np.isnan(v), -999, np.round(v * 100)).astype(int)`. -/
def jsonEncodeCell : Cell → ℤ
  | none => -999
  | some v => roundHalfEven (v * 100)

/-- Index comparison used to model `np.argsort` on keys `xs`: lexicographic
on (value at index, index). On pairwise-distinct keys every comparison sort
returns the unique sorting permutation, which is this stable one. -/
def lexLt (xs : List ℚ) (i j : ℕ) : Prop :=
  xs.getD i 0 < xs.getD j 0 ∨ (xs.getD i 0 = xs.getD j 0 ∧ i ≤ j)

instance lexLt.decidableRel (xs : List ℚ) : DecidableRel (lexLt xs) :=
  fun i j => inferInstanceAs
    (Decidable (xs.getD i 0 < xs.getD j 0 ∨ (xs.getD i 0 = xs.getD j 0 ∧ i ≤ j)))

instance lexLt.isTotal (xs : List ℚ) : IsTotal ℕ (lexLt xs) := by
  constructor
  intro i j
  rcases lt_trichotomy (xs.getD i 0) (xs.getD j 0) with h | h | h
  · exact Or.inl (Or.inl h)
  · rcases Nat.le_total i j with hij | hij
    · exact Or.inl (Or.inr ⟨h, hij⟩)
    · exact Or.inr (Or.inr ⟨h.symm, hij⟩)
  · exact Or.inr (Or.inl h)

instance lexLt.isTrans (xs : List ℚ) : IsTrans ℕ (lexLt xs) := by
  constructor
  intro i j k hij hjk
  rcases hij with h1 | ⟨h1, hi⟩
  · rcases hjk with h2 | ⟨h2, _⟩
    · exact Or.inl (h1.trans h2)
    · exact Or.inl (lt_of_lt_of_eq h1 h2)
  · rcases hjk with h2 | ⟨h2, hj⟩
    · exact Or.inl (lt_of_eq_of_lt h1 h2)
    · exact Or.inr ⟨h1.trans h2, hi.trans hj⟩

/-- `np.argsort xs`: the permutation of `[0, …, xs.length - 1]` that sorts
the keys `xs`, ties broken by index. -/
def argsort (xs : List ℚ) : List ℕ :=
  List.insertionSort (lexLt xs) (List.range xs.length)

/-- Longitude domain conversion of `convert_to_json.py` (line 35):
`lon - 360 if lon > 180 else lon`, applied per element of a Python list. -/
def convertLonJson (lon : ℚ) : ℚ := if lon > 180 then lon - 360 else lon

/-- Longitude domain conversion of `process_data.py` (line 48):
`np.where(lons > 180, lons - 360, lons)`, per element. -/
def convertLonBin (lon : ℚ) : ℚ := if lon > 180 then lon - 360 else lon

/-- `lons_converted` of `convert_to_json.py` (line 35). -/
def lonsConvertedJson (lons : List ℚ) : List ℚ := lons.map convertLonJson

/-- `sort_idx = np.argsort(lons_converted)` of `convert_to_json.py` (line 36). -/
def sortIdxJson (lons : List ℚ) : List ℕ := argsort (lonsConvertedJson lons)

/-- `lons_sorted = [lons_converted[i] for i in sort_idx]` of
`convert_to_json.py` (line 37). -/
def lonsSortedJson (lons : List ℚ) : List ℚ :=
  (sortIdxJson lons).map (fun i => (lonsConvertedJson lons).getD i 0)

/-- `lons_converted` of `process_data.py` (line 48). -/
def lonsConvertedBin (lons : List ℚ) : List ℚ := lons.map convertLonBin

/-- `lon_sort = np.argsort(lons_converted)` of `process_data.py` (line 49). -/
def lonSort (lons : List ℚ) : List ℕ := argsort (lonsConvertedBin lons)

/-- `lons_sorted = lons_converted[lon_sort]` of `process_data.py` (line 50). -/
def lonsSortedBin (lons : List ℚ) : List ℚ :=
  (lonSort lons).map (fun i => (lonsConvertedBin lons).getD i 0)

/-- `lat_flip = np.argsort(-lats)` of `process_data.py` (line 53). -/
def latFlip (lats : List ℚ) : List ℕ := argsort (lats.map (fun x => -x))

/-- `lats_sorted = lats[lat_flip]` of `process_data.py` (line 54). -/
def latsSorted (lats : List ℚ) : List ℚ :=
  (latFlip lats).map (fun i => lats.getD i 0)

/-- One time slice of the `sst` variable: rows indexed by latitude, columns
by longitude. -/
abbrev Frame := List (List Cell)

/-- The reindexing `frame = frame[:, lon_sort]; frame = frame[lat_flip, :]`
of `process_data.py` (lines 103–104): row `a` of the result is row
`latFlip[a]` of the input, with its columns selected by `lonSort`. -/
def reorderFrame (lat_flip lon_sort : List ℕ) (frame : Frame) : Frame :=
  lat_flip.map (fun i => lon_sort.map (fun j => (frame.getD i []).getD j none))

/-- Per-frame uint8 encoding (lines 106–109 applied to a whole 2-D frame). -/
def encodeFrame (frame : Frame) : List (List ℕ) :=
  frame.map (fun row => row.map encodeCell)

/-- The flat byte stream written by `binary_data.tofile` in `process_data.py`
(lines 97–118): each frame is reordered, encoded, and the
`(ntimes, nlat, nlon)` uint8 array is written in C (row-major) order. -/
def processBinary (lats lons : List ℚ) (frames : List Frame) : List ℕ :=
  (frames.map (fun f =>
    (encodeFrame (reorderFrame (latFlip lats) (lonSort lons) f)).flatten)).flatten

/-- A JSON value, as produced by `json.dump` on the metadata dictionaries. -/
inductive JVal where
  | jnum (q : ℚ)
  | jint (n : ℤ)
  | jstr (s : String)
  | jarr (xs : List JVal)
  | jobj (fields : List (String × JVal))

/-- Top-level keys of a JSON object, in insertion order. -/
def JVal.keys : JVal → List String
  | .jobj fs => fs.map Prod.fst
  | _ => []

/-- Field lookup in a JSON object. -/
def JVal.field (k : String) : JVal → Option JVal
  | .jobj fs => fs.lookup k
  | _ => none

/-- Python `min` over a (nonempty) list. -/
def pyListMin : List ℚ → ℚ
  | [] => 0
  | x :: r => r.foldl min x

/-- Python `max` over a (nonempty) list. -/
def pyListMax : List ℚ → ℚ
  | [] => 0
  | x :: r => r.foldl max x

/-- The `metadata` dictionary built by `process_data.py` (lines 68–87),
keyed exactly as in the source. `times` holds the string forms of the
time coordinates; labels are their first 7 characters (`str(t)[:7]`). -/
def binMetadata (lats lons : List ℚ) (times : List String) : JVal :=
  let lons_sorted := lonsSortedBin lons
  let lats_sorted := latsSorted lats
  let half_lon := |lons_sorted.getD 1 0 - lons_sorted.getD 0 0| / 2
  let half_lat := |lats_sorted.getD 1 0 - lats_sorted.getD 0 0| / 2
  .jobj
    [("nlat", .jint lats.length),
     ("nlon", .jint lons.length),
     ("ntimes", .jint times.length),
     ("times", .jarr (times.map (fun t => .jstr (t.take 7)))),
     ("lats", .jarr (lats_sorted.map .jnum)),
     ("lons", .jarr (lons_sorted.map .jnum)),
     ("bounds", .jobj
       [("north", .jnum (lats_sorted.getD 0 0 + half_lat)),
        ("south", .jnum (lats_sorted.getD (lats_sorted.length - 1) 0 - half_lat)),
        ("west", .jnum (lons_sorted.getD 0 0 - half_lon)),
        ("east", .jnum (lons_sorted.getD (lons_sorted.length - 1) 0 + half_lon))]),
     ("encoding", .jobj
       [("min", .jnum SST_MIN),
        ("max", .jnum SST_MAX),
        ("nodata", .jint 255),
        ("description", .jstr "uint8: 0-254 maps to -2C to 32C, 255 = no data")])]

/-- The `metadata` dictionary built by `convert_to_json.py` (lines 47–58),
keyed exactly as in the source. Note: it has no grid-dimension fields. -/
def jsonMetadata (lats lons : List ℚ) (times : List String) : JVal :=
  let lons_sorted := lonsSortedJson lons
  .jobj
    [("lons", .jarr (lons_sorted.map .jnum)),
     ("lats", .jarr (lats.map .jnum)),
     ("times", .jarr (times.map (fun t => .jstr (t.take 7)))),
     ("bounds", .jobj
       [("minLon", .jnum (pyListMin lons_sorted)),
        ("maxLon", .jnum (pyListMax lons_sorted)),
        ("minLat", .jnum (pyListMin lats)),
        ("maxLat", .jnum (pyListMax lats))]),
     ("valueRange", .jobj [("min", .jint (-2)), ("max", .jint 32)])]

/-- `DATA_URL` from `sst_animated_map.py`. -/
def DATA_URL : String :=
  "https://downloads.psl.noaa.gov/Datasets/noaa.ersst.v5/sst.mnmean.nc"

/-- `DATA_FILE` from `sst_animated_map.py`. -/
def DATA_FILE : String := "sst.mnmean.nc"

/-- Observable side effects of `download_data` in `sst_animated_map.py`:
console output, HTTP requests, and file writes. -/
inductive Effect where
  | consoleOut (msg : String)
  | httpGet (url : String)
  | fileWrite (path : String)
deriving DecidableEq

/-- `download_data` of `sst_animated_map.py` (lines 27–50), as a function
from the set of existing file names (the filesystem) to the resulting set of
file names and the trace of effects. If `DATA_FILE` exists it prints a notice
and returns; otherwise it issues the GET request and writes the file. -/
def download_data (fs : List String) : List String × List Effect :=
  if DATA_FILE ∈ fs then
    (fs, [.consoleOut ("Data file already exists, skipping download.")])
  else
    (DATA_FILE :: fs,
     [.consoleOut "Downloading data...", .httpGet DATA_URL, .fileWrite DATA_FILE,
      .consoleOut "Download complete."])

/-! ## Theorems -/

theorem argsort_perm (xs : List ℚ) : (argsort xs).Perm (List.range xs.length) :=
  List.perm_insertionSort _ _

theorem argsort_sorted (xs : List ℚ) : List.Sorted (lexLt xs) (argsort xs) :=
  List.sorted_insertionSort _ _

theorem argsort_length (xs : List ℚ) : (argsort xs).length = xs.length := by
  simpa using (argsort_perm xs).length_eq

theorem argsort_nodup (xs : List ℚ) : (argsort xs).Nodup :=
  (argsort_perm xs).nodup_iff.mpr (List.nodup_range _)

theorem argsort_mem_lt (xs : List ℚ) {i : ℕ} (h : i ∈ argsort xs) :
    i < xs.length := by
  simpa using (argsort_perm xs).mem_iff.mp h

/-- On a `Nodup` key list, positions with equal `getD`-values coincide. -/
theorem nodup_getD_inj (xs : List ℚ) (h : xs.Nodup) {i j : ℕ}
    (hi : i < xs.length) (hj : j < xs.length)
    (he : xs.getD i 0 = xs.getD j 0) : i = j := by
  rw [List.getD_eq_getElem _ _ hi, List.getD_eq_getElem _ _ hj] at he
  exact (List.Nodup.getElem_inj_iff h).mp he

/-- Reading the keys of a `Nodup` list along its argsort gives a strictly
ascending list. -/
theorem argsort_map_strict_ascending (xs : List ℚ) (h : xs.Nodup) :
    ((argsort xs).map (fun i => xs.getD i 0)).Pairwise (· < ·) := by
  rw [List.pairwise_map]
  have hs : (argsort xs).Pairwise (lexLt xs) := argsort_sorted xs
  have hn : (argsort xs).Pairwise (· ≠ ·) := argsort_nodup xs
  refine (hs.and hn).imp_of_mem ?_
  intro a b ha hb hab
  rcases hab.1 with hlt | ⟨heq, _⟩
  · exact hlt
  · exact absurd (nodup_getD_inj xs h (argsort_mem_lt xs ha)
      (argsort_mem_lt xs hb) heq) hab.2

/-- The conversion is injective on the source domain `[0, 360)`. -/
theorem convertLonBin_inj {a b : ℚ} (ha : 0 ≤ a ∧ a < 360) (hb : 0 ≤ b ∧ b < 360)
    (he : convertLonBin a = convertLonBin b) : a = b := by
  unfold convertLonBin at he
  split_ifs at he with h1 h2 h2
  · linarith
  · linarith
  · linarith
  · exact he

/-- The clipped value lies in `[0, 254]`. -/
theorem npClip_mem (x : ℚ) : 0 ≤ npClip x 0 254 ∧ npClip x 0 254 ≤ 254 := by
  unfold npClip
  constructor
  · exact le_min (le_max_right x 0) (by norm_num)
  · exact min_le_right _ _

/-- Every non-NaN encoded value is at most 254. -/
theorem encodeVal_le (v : ℚ) : encodeVal v ≤ 254 := by
  unfold encodeVal
  have h := (npClip_mem ((v - SST_MIN) / SST_RANGE * 254)).2
  have hfl : Int.floor (npClip ((v - SST_MIN) / SST_RANGE * 254) 0 254) ≤ 254 := by
    have := Int.floor_le_floor (α := ℚ) h
    simpa using this
  exact Int.toNat_le.mpr hfl

/-- `roundHalfEven` never rounds below the floor. -/
theorem le_roundHalfEven {x : ℚ} {n : ℤ} (h : (n : ℚ) ≤ x) :
    n ≤ roundHalfEven x := by
  have hfl : n ≤ Int.floor x := Int.le_floor.mpr h
  unfold roundHalfEven
  split_ifs <;> omega

/-- `roundHalfEven` of a value at most `n` is at most `n`. -/
theorem roundHalfEven_le {x : ℚ} {n : ℤ} (h : x ≤ (n : ℚ)) :
    roundHalfEven x ≤ n := by
  have hfl : Int.floor x ≤ n := by
    have := Int.floor_le_floor (α := ℚ) h
    simpa using this
  unfold roundHalfEven
  split_ifs with h1 h2 h3
  · exact hfl
  · exact hfl
  · have hlt : (Int.floor x : ℚ) < (n : ℚ) := by
      have hx : (Int.floor x : ℚ) + 1/2 ≤ x := by linarith [not_lt.mp h1]
      linarith
    have : Int.floor x < n := by exact_mod_cast hlt
    omega
  · have hlt : (Int.floor x : ℚ) < (n : ℚ) := by
      have hx : (Int.floor x : ℚ) + 1/2 ≤ x := by linarith [not_lt.mp h1]
      linarith
    have : Int.floor x < n := by exact_mod_cast hlt
    omega

/-- C1 (counterexample): the claim quantifies over every non-NaN source
value, but the encoder clips: at `v = 100` the code encodes to `254`, which
decodes to `32`, an error of `68` — far more than one quantization step. -/
theorem roundtrip_fails_out_of_domain :
    ¬ (|decodeVal (encodeVal 100) - 100| ≤ 34 / 254) := by
  have h : encodeVal 100 = 254 := by
    have hc : npClip ((100 - SST_MIN) / SST_RANGE * 254) 0 254 = 254 := by
      norm_num [npClip, SST_MIN, SST_MAX, SST_RANGE]
    rw [encodeVal, hc]
    rfl
  rw [h]
  norm_num [decodeVal]

/-- C1 (amended): for every non-NaN source value in the encoding domain
`[-2, 32]`, the uint8 code produced by `process_data.py` decodes back via
`u/254*34 - 2` to within one quantization step (`34/254`) of the source. -/
theorem roundtrip_within_step (v : ℚ) (h1 : -2 ≤ v) (h2 : v ≤ 32) :
    |decodeVal (encodeVal v) - v| ≤ 34 / 254 := by
  have hx0 : 0 ≤ (v - SST_MIN) / SST_RANGE * 254 := by
    simp only [SST_MIN, SST_RANGE, SST_MAX]
    rw [div_mul_eq_mul_div]
    apply div_nonneg _ (by norm_num)
    linarith
  have hx254 : (v - SST_MIN) / SST_RANGE * 254 ≤ 254 := by
    simp only [SST_MIN, SST_RANGE, SST_MAX]
    rw [div_mul_eq_mul_div, div_le_iff₀ (by norm_num : (0:ℚ) < 32 - -2)]
    linarith
  set x := (v - SST_MIN) / SST_RANGE * 254 with hxdef
  have hclip : npClip x 0 254 = x := by
    unfold npClip
    rw [max_eq_left hx0, min_eq_left hx254]
  have hfl : (0 : ℤ) ≤ Int.floor x := Int.floor_nonneg.mpr hx0
  have henc : encodeVal v = (Int.floor x).toNat := by
    rw [encodeVal, ← hxdef, hclip]
  have hcast : (((Int.floor x).toNat : ℕ) : ℚ) = ((Int.floor x : ℤ) : ℚ) := by
    exact_mod_cast congrArg (Int.cast : ℤ → ℚ) (Int.toNat_of_nonneg hfl)
  have hle : ((Int.floor x : ℤ) : ℚ) ≤ x := Int.floor_le x
  have hgt : x < ((Int.floor x : ℤ) : ℚ) + 1 := Int.lt_floor_add_one x
  have hxv : 34 * x = 254 * v + 508 := by
    rw [hxdef]
    simp only [SST_MIN, SST_RANGE, SST_MAX]
    ring
  rw [decodeVal, henc, hcast, abs_le]
  constructor <;> linarith [hle, hgt, hxv]

/-- C1 (amended) witness at `v = 10`. -/
theorem roundtrip_within_step_witness :
    (-2 : ℚ) ≤ 10 ∧ (10 : ℚ) ≤ 32 ∧ |decodeVal (encodeVal 10) - 10| ≤ 34 / 254 :=
  ⟨by norm_num, by norm_num, roundtrip_within_step 10 (by norm_num) (by norm_num)⟩

/-- C2: an output cell of `process_data.py` equals the sentinel 255 iff the
source cell is NaN, and every non-NaN cell encodes into `[0, 254]`. -/
theorem sentinel_iff_nan :
    (∀ c : Cell, encodeCell c = NODATA ↔ c = none) ∧
    (∀ v : ℚ, encodeCell (some v) ≤ 254) := by
  constructor
  · intro c
    cases c with
    | none => simp [encodeCell]
    | some v =>
      have h := encodeVal_le v
      simp only [encodeCell, NODATA]
      constructor
      · intro he
        omega
      · intro he
        exact absurd he (Option.some_ne_none v)
  · intro v
    exact encodeVal_le v

/-- C3 (counterexample): the JSON encoder of `convert_to_json.py` can
produce the sentinel `-999` from a non-NaN cell: the value `-9.99`
encodes to `round(-999) = -999`. -/
theorem json_sentinel_collision :
    jsonEncodeCell (some (-999 / 100)) = -999 ∧ (some (-999 / 100) : Cell) ≠ none := by
  refine ⟨?_, by simp⟩
  norm_num [jsonEncodeCell, roundHalfEven]

/-- C3 (amended): every binary-encoded cell lies in `[0, 255]` and every
non-NaN cell — whatever its value — avoids the sentinel 255; for the JSON
converter the guarantee only holds on the documented value range: for
non-NaN `v ∈ [-2, 32]` the encoding `round(v*100)` lies in `[-200, 3200]`
and never hits the sentinel `-999` (out-of-range values such as `-9.99` do
collide with it). -/
theorem encoded_range_and_sentinel (v : ℚ) (h1 : -2 ≤ v) (h2 : v ≤ 32) :
    (∀ c : Cell, encodeCell c ≤ 255) ∧
    (∀ w : ℚ, encodeCell (some w) ≠ NODATA) ∧
    (-200 ≤ jsonEncodeCell (some v) ∧ jsonEncodeCell (some v) ≤ 3200) ∧
    jsonEncodeCell (some v) ≠ -999 := by
  have hlo : ((-200 : ℤ) : ℚ) ≤ v * 100 := by push_cast; linarith
  have hhi : v * 100 ≤ ((3200 : ℤ) : ℚ) := by push_cast; linarith
  have hrlo : (-200 : ℤ) ≤ roundHalfEven (v * 100) := le_roundHalfEven hlo
  have hrhi : roundHalfEven (v * 100) ≤ 3200 := roundHalfEven_le hhi
  refine ⟨?_, ?_, ⟨?_, ?_⟩, ?_⟩
  · intro c
    cases c with
    | none => simp [encodeCell, NODATA]
    | some w => exact le_trans (encodeVal_le w) (by norm_num)
  · intro w
    have h := encodeVal_le w
    simp only [encodeCell, NODATA]
    omega
  · simpa [jsonEncodeCell] using hrlo
  · simpa [jsonEncodeCell] using hrhi
  · simp only [jsonEncodeCell]
    omega

/-- C3 (amended) witness at `v = 0`. -/
theorem encoded_range_and_sentinel_witness :
    (-2 : ℚ) ≤ 0 ∧ (0 : ℚ) ≤ 32 ∧
    ((∀ c : Cell, encodeCell c ≤ 255) ∧
     (∀ w : ℚ, encodeCell (some w) ≠ NODATA) ∧
     (-200 ≤ jsonEncodeCell (some 0) ∧ jsonEncodeCell (some 0) ≤ 3200) ∧
     jsonEncodeCell (some 0) ≠ -999) :=
  ⟨by norm_num, by norm_num,
   encoded_range_and_sentinel 0 (by norm_num) (by norm_num)⟩

/-- C6: the binary encoder saturates out-of-domain inputs: any non-NaN value
below −2 °C encodes to 0 and any non-NaN value above 32 °C encodes to 254. -/
theorem encode_saturates (v : ℚ) :
    (v < -2 → encodeVal v = 0) ∧ (32 < v → encodeVal v = 254) := by
  constructor
  · intro h
    have hx : (v - SST_MIN) / SST_RANGE * 254 ≤ 0 := by
      simp only [SST_MIN, SST_RANGE, SST_MAX]
      rw [div_mul_eq_mul_div, div_nonpos_iff]
      right
      constructor
      · linarith
      · norm_num
    rw [encodeVal, npClip, max_eq_right hx, min_eq_left (by norm_num : (0:ℚ) ≤ 254)]
    simp
  · intro h
    have hx : (254 : ℚ) ≤ (v - SST_MIN) / SST_RANGE * 254 := by
      simp only [SST_MIN, SST_RANGE, SST_MAX]
      rw [div_mul_eq_mul_div, le_div_iff₀ (by norm_num : (0:ℚ) < 32 - -2)]
      linarith
    rw [encodeVal, npClip,
      max_eq_left (le_trans (by norm_num : (0:ℚ) ≤ 254) hx), min_eq_right hx]
    rfl

/-- C6 witness at `v = -5` and `v = 40`. -/
theorem encode_saturates_witness :
    encodeVal (-5) = 0 ∧ encodeVal 40 = 254 :=
  ⟨(encode_saturates (-5)).1 (by norm_num), (encode_saturates 40).2 (by norm_num)⟩

/-- `getD` with default `0` commutes with pointwise negation. -/
theorem getD_map_neg (lats : List ℚ) (i : ℕ) :
    (lats.map (fun x => -x)).getD i 0 = -(lats.getD i 0) := by
  rcases Nat.lt_or_ge i lats.length with h | h
  · rw [List.getD_eq_getElem _ _ (by simpa using h), List.getD_eq_getElem _ _ h,
      List.getElem_map]
  · rw [List.getD_eq_default _ _ (by simpa using h), List.getD_eq_default _ _ h,
      neg_zero]

/-- Distinct longitudes in `[0, 360)` stay distinct after conversion. -/
theorem lonsConverted_nodup (lons : List ℚ) (hd : lons.Nodup)
    (hr : ∀ x ∈ lons, 0 ≤ x ∧ x < 360) : (lonsConvertedBin lons).Nodup :=
  hd.map_on (fun a ha b hb he => convertLonBin_inj (hr a ha) (hr b hb) he)

/-- The sorted longitude list of the binary converter is strictly
ascending (for distinct in-range input). -/
theorem lonsSortedBin_ascending (lons : List ℚ) (hd : lons.Nodup)
    (hr : ∀ x ∈ lons, 0 ≤ x ∧ x < 360) :
    (lonsSortedBin lons).Pairwise (· < ·) := by
  simpa [lonsSortedBin, lonSort] using
    argsort_map_strict_ascending _ (lonsConverted_nodup lons hd hr)

/-- The two scripts build the same converted-longitude list. -/
theorem lonsConvertedJson_eq_bin (lons : List ℚ) :
    lonsConvertedJson lons = lonsConvertedBin lons := rfl

/-- The two scripts build the same sorted-longitude list. -/
theorem lonsSortedJson_eq_bin (lons : List ℚ) :
    lonsSortedJson lons = lonsSortedBin lons := by
  rw [lonsSortedJson, lonsSortedBin, sortIdxJson, lonSort, lonsConvertedJson_eq_bin]

/-- C4: for pairwise-distinct longitudes in `[0, 360)`, the domain
conversion keeps the values pairwise distinct, and reordering by
`argsort` of the converted values is a permutation of the index range whose
output is strictly ascending. (With distinct keys this permutation is the
unique sorting permutation, hence in particular the stable one.) -/
theorem lon_reorder_correct (lons : List ℚ) (hd : lons.Nodup)
    (hr : ∀ x ∈ lons, 0 ≤ x ∧ x < 360) :
    (lonsConvertedBin lons).Nodup ∧
    (lonSort lons).Perm (List.range lons.length) ∧
    (lonsSortedBin lons).Pairwise (· < ·) := by
  refine ⟨lonsConverted_nodup lons hd hr, ?_, lonsSortedBin_ascending lons hd hr⟩
  simpa [lonsConvertedBin] using argsort_perm (lonsConvertedBin lons)

/-- C4 witness at `lons = [0, 190, 100]`. -/
theorem lon_reorder_correct_witness :
    ([(0 : ℚ), 190, 100].Nodup ∧ (∀ x ∈ [(0 : ℚ), 190, 100], 0 ≤ x ∧ x < 360)) ∧
    ((lonsConvertedBin [0, 190, 100]).Nodup ∧
     (lonSort [0, 190, 100]).Perm (List.range ([(0 : ℚ), 190, 100]).length) ∧
     (lonsSortedBin [0, 190, 100]).Pairwise (· < ·)) :=
  ⟨⟨by decide, by decide⟩, lon_reorder_correct [0, 190, 100] (by decide) (by decide)⟩

/-- C9: the JSON converter's per-element list comprehension plus `argsort`
and the binary converter's `np.where` plus `argsort` produce the same
permutation and the same sorted longitude list. -/
theorem json_bin_pipelines_agree (lons : List ℚ) (_hd : lons.Nodup) :
    sortIdxJson lons = lonSort lons ∧ lonsSortedJson lons = lonsSortedBin lons := by
  have h : lonsConvertedJson lons = lonsConvertedBin lons := rfl
  constructor
  · rw [sortIdxJson, lonSort, h]
  · rw [lonsSortedJson, lonsSortedBin, sortIdxJson, lonSort, h]

/-- C9 witness at `lons = [0, 190, 100]`. -/
theorem json_bin_pipelines_agree_witness :
    ([(0 : ℚ), 190, 100].Nodup) ∧
    (sortIdxJson [0, 190, 100] = lonSort [0, 190, 100] ∧
     lonsSortedJson [0, 190, 100] = lonsSortedBin [0, 190, 100]) :=
  ⟨by decide, json_bin_pipelines_agree [0, 190, 100] (by decide)⟩

/-- C8: for pairwise-distinct latitudes, `lat_flip = argsort(-lats)` is a
permutation of the index range, reading the latitudes along it is strictly
descending (north to south), the metadata `lats` field is exactly that
reordered array, and row `i` of every reordered frame is row `lat_flip[i]`
of the source frame (with columns selected by `lon_sort`) — the same
permutation in both places. -/
theorem lat_flip_correct (lats : List ℚ) (hd : lats.Nodup) :
    (latFlip lats).Perm (List.range lats.length) ∧
    (latsSorted lats).Pairwise (· > ·) ∧
    (∀ lons times, JVal.field "lats" (binMetadata lats lons times) =
      some (.jarr ((latsSorted lats).map .jnum))) ∧
    (∀ lons (frame : Frame) i, i < lats.length →
      (reorderFrame (latFlip lats) (lonSort lons) frame).getD i [] =
        (lonSort lons).map
          (fun j => (frame.getD ((latFlip lats).getD i 0) []).getD j none)) := by
  have hn : (lats.map (fun x => -x)).Nodup := hd.map neg_injective
  refine ⟨?_, ?_, ?_, ?_⟩
  · simpa [latFlip] using argsort_perm (lats.map (fun x => -x))
  · have h1 := argsort_map_strict_ascending _ hn
    rw [List.pairwise_map] at h1
    rw [latsSorted, List.pairwise_map]
    refine h1.imp ?_
    intro a b hab
    rw [getD_map_neg, getD_map_neg] at hab
    exact neg_lt_neg_iff.mp hab
  · intro lons times
    rfl
  · intro lons frame i hi
    have hlen : i < (latFlip lats).length := by
      rw [latFlip, argsort_length, List.length_map]
      exact hi
    rw [reorderFrame, List.getD_eq_getElem _ _ (by simpa using hlen),
      List.getElem_map, List.getD_eq_getElem _ _ hlen]

/-- C8 witness at `lats = [10, -5, 20]`. -/
theorem lat_flip_correct_witness :
    ([(10 : ℚ), -5, 20].Nodup) ∧
    ((latFlip [10, -5, 20]).Perm (List.range ([(10 : ℚ), -5, 20]).length) ∧
     (latsSorted [10, -5, 20]).Pairwise (· > ·) ∧
     (∀ lons times, JVal.field "lats" (binMetadata [10, -5, 20] lons times) =
       some (.jarr ((latsSorted [10, -5, 20]).map .jnum))) ∧
     (∀ lons (frame : Frame) i, i < ([(10 : ℚ), -5, 20]).length →
       (reorderFrame (latFlip [10, -5, 20]) (lonSort lons) frame).getD i [] =
         (lonSort lons).map
           (fun j => (frame.getD ((latFlip [10, -5, 20]).getD i 0) []).getD j
             none))) :=
  ⟨by decide, lat_flip_correct [10, -5, 20] (by decide)⟩

/-- Flattening a list of lists of uniform length `k` multiplies lengths. -/
theorem flatten_length_uniform {α : Type} (k : ℕ) :
    ∀ L : List (List α), (∀ l ∈ L, l.length = k) →
      L.flatten.length = L.length * k
  | [], _ => by simp
  | x :: xs, h => by
    simp only [List.flatten_cons, List.length_append, List.length_cons]
    rw [flatten_length_uniform k xs (fun l hl => h l (List.mem_cons_of_mem _ hl)),
      h x (List.mem_cons_self _ _), Nat.succ_mul]
    omega

/-- Row-major indexing into the flattening of uniform-length rows. -/
theorem flatten_getElem_uniform {α : Type} (k b : ℕ) (hb : b < k) :
    ∀ (L : List (List α)) (a : ℕ), (∀ l ∈ L, l.length = k) → a < L.length →
      L.flatten[a * k + b]? = (L.getD a [])[b]?
  | [], a, _, ha => by simp at ha
  | x :: xs, 0, h, _ => by
    simp only [Nat.zero_mul, Nat.zero_add, List.flatten_cons]
    rw [List.getElem?_append_left (by rw [h x (List.mem_cons_self _ _)]; exact hb)]
    rfl
  | x :: xs, a' + 1, h, ha => by
    have hx : x.length = k := h x (List.mem_cons_self _ _)
    have hle : x.length ≤ (a' + 1) * k + b := by
      rw [hx, Nat.succ_mul]
      omega
    have hidx : (a' + 1) * k + b - x.length = a' * k + b := by
      rw [hx, Nat.succ_mul]
      omega
    simp only [List.flatten_cons]
    rw [List.getElem?_append_right hle, hidx,
      flatten_getElem_uniform k b hb xs a'
        (fun l hl => h l (List.mem_cons_of_mem _ hl))
        (Nat.lt_of_succ_lt_succ (by simpa using ha))]
    rfl

/-- Every output byte of the encoder fits in a uint8. -/
theorem encodeCell_le (c : Cell) : encodeCell c ≤ 255 := by
  cases c with
  | none => exact le_refl _
  | some v => exact le_trans (encodeVal_le v) (by norm_num)

/-- The reordered-and-encoded frame, row by row: row `i` reads source row
`lat_flip[i]` through `lon_sort` and encodes each cell. -/
theorem encodedFrame_eq (lats lons : List ℚ) (f : Frame) :
    encodeFrame (reorderFrame (latFlip lats) (lonSort lons) f) =
      (latFlip lats).map (fun i => (lonSort lons).map
        (fun j => encodeCell ((f.getD i []).getD j none))) := by
  rw [encodeFrame, reorderFrame, List.map_map]
  apply List.map_congr_left
  intro i _
  simp [List.map_map, Function.comp]

/-- Rows of the encoded reordered frame all have length `nlon`. -/
theorem encodedFrame_rows_length (lats lons : List ℚ) (f : Frame) :
    ∀ row ∈ encodeFrame (reorderFrame (latFlip lats) (lonSort lons) f),
      row.length = lons.length := by
  rw [encodedFrame_eq]
  intro row hrow
  obtain ⟨i, _, rfl⟩ := List.mem_map.mp hrow
  rw [List.length_map, lonSort, argsort_length, lonsConvertedBin, List.length_map]

/-- The encoded reordered frame has `nlat` rows. -/
theorem encodedFrame_length (lats lons : List ℚ) (f : Frame) :
    (encodeFrame (reorderFrame (latFlip lats) (lonSort lons) f)).length =
      lats.length := by
  rw [encodedFrame_eq, List.length_map, latFlip, argsort_length, List.length_map]

/-- C5: the binary converter's output is a flat array of exactly
`ntimes × nlat × nlon` cells, each fitting one uint8, in row-major order
with time outermost, then latitude, then longitude: the byte at flat index
`t·(nlat·nlon) + i·nlon + j` is the encoding of reordered frame `t` at
row `i`, column `j`. -/
theorem binary_layout (lats lons : List ℚ) (frames : List Frame)
    (t i j : ℕ) (ht : t < frames.length) (hi : i < lats.length)
    (hj : j < lons.length) :
    (processBinary lats lons frames).length =
      frames.length * (lats.length * lons.length) ∧
    (∀ u ∈ processBinary lats lons frames, u ≤ 255) ∧
    (processBinary lats lons frames)[t * (lats.length * lons.length) +
        i * lons.length + j]? =
      some (encodeCell (((frames.getD t []).getD ((latFlip lats).getD i 0)
        []).getD ((lonSort lons).getD j 0) none)) := by
  have houter : ∀ l ∈ frames.map (fun f =>
      (encodeFrame (reorderFrame (latFlip lats) (lonSort lons) f)).flatten),
      l.length = lats.length * lons.length := by
    intro l hl
    obtain ⟨f, _, rfl⟩ := List.mem_map.mp hl
    rw [flatten_length_uniform _ _ (encodedFrame_rows_length lats lons f),
      encodedFrame_length]
  refine ⟨?_, ?_, ?_⟩
  · rw [processBinary, flatten_length_uniform _ _ houter, List.length_map]
  · intro u hu
    rw [processBinary, List.mem_flatten] at hu
    obtain ⟨l, hl, hul⟩ := hu
    obtain ⟨f, _, rfl⟩ := List.mem_map.mp hl
    rw [List.mem_flatten] at hul
    obtain ⟨row, hrow, hurow⟩ := hul
    have := encodedFrame_rows_length lats lons f
    rw [encodedFrame_eq] at hrow
    obtain ⟨a, _, rfl⟩ := List.mem_map.mp hrow
    obtain ⟨b, _, rfl⟩ := List.mem_map.mp hurow
    exact encodeCell_le _
  · have hb : i * lons.length + j < lats.length * lons.length := by
      have h1 : i * lons.length + j < (i + 1) * lons.length := by
        rw [Nat.succ_mul]
        omega
      exact lt_of_lt_of_le h1 (Nat.mul_le_mul_right _ hi)
    have hassoc : t * (lats.length * lons.length) + i * lons.length + j =
        t * (lats.length * lons.length) + (i * lons.length + j) := by omega
    rw [processBinary, hassoc,
      flatten_getElem_uniform _ _ hb _ t houter (by simpa using ht)]
    have hmap : (frames.map (fun f =>
        (encodeFrame (reorderFrame (latFlip lats) (lonSort lons) f)).flatten)).getD
          t [] =
        (encodeFrame (reorderFrame (latFlip lats) (lonSort lons)
          (frames.getD t []))).flatten := by
      rw [List.getD_eq_getElem _ _ (by simpa using ht), List.getElem_map,
        List.getD_eq_getElem _ _ ht]
    rw [hmap,
      flatten_getElem_uniform _ _ hj _ i
        (encodedFrame_rows_length lats lons (frames.getD t []))
        (by rw [encodedFrame_length]; exact hi)]
    have hrow : (encodeFrame (reorderFrame (latFlip lats) (lonSort lons)
        (frames.getD t []))).getD i [] =
        (lonSort lons).map (fun j => encodeCell
          (((frames.getD t []).getD ((latFlip lats).getD i 0) []).getD j none)) := by
      have hilen2 : i < (latFlip lats).length := by
        rw [latFlip, argsort_length, List.length_map]
        exact hi
      rw [encodedFrame_eq,
        List.getD_eq_getElem _ _ (by simpa using hilen2),
        List.getElem_map, List.getD_eq_getElem _ _ hilen2]
    rw [hrow]
    have hjlen : j < (lonSort lons).length := by
      rw [lonSort, argsort_length, lonsConvertedBin, List.length_map]
      exact hj
    rw [List.getElem?_map, List.getElem?_eq_getElem hjlen]
    rw [List.getD_eq_getElem _ _ hjlen]
    rfl

/-- C5 witness on a concrete 1×2×2 grid. -/
theorem binary_layout_witness :
    (0 < ([[[some (10 : ℚ), none], [some 20, some 30]]] : List Frame).length ∧
     0 < ([(10 : ℚ), -5] : List ℚ).length ∧ 1 < ([(0 : ℚ), 190] : List ℚ).length) ∧
    ((processBinary [(10 : ℚ), -5] [(0 : ℚ), 190]
        [[[some 10, none], [some 20, some 30]]]).length = 1 * (2 * 2) ∧
     (∀ u ∈ processBinary [(10 : ℚ), -5] [(0 : ℚ), 190]
        [[[some 10, none], [some 20, some 30]]], u ≤ 255) ∧
     (processBinary [(10 : ℚ), -5] [(0 : ℚ), 190]
        [[[some 10, none], [some 20, some 30]]])[0 * (2 * 2) + 0 * 2 + 1]? =
       some (encodeCell (((([[[some (10 : ℚ), none], [some 20, some 30]]] :
         List Frame).getD 0 []).getD ((latFlip [(10 : ℚ), -5]).getD 0 0)
         []).getD ((lonSort [(0 : ℚ), 190]).getD 1 0) none))) :=
  ⟨⟨by decide, by decide, by decide⟩,
   binary_layout [(10 : ℚ), -5] [(0 : ℚ), 190]
     [[[some 10, none], [some 20, some 30]]] 0 0 1
     (by decide) (by decide) (by decide)⟩

/-- C7 (counterexample): the metadata written by `convert_to_json.py` has
exactly the keys lons / lats / times / bounds / valueRange — it contains no
grid-dimension fields, contradicting "contains grid dimensions" for that
converter. -/
theorem json_metadata_lacks_dimensions :
    JVal.keys (jsonMetadata [10, -5] [0, 190] ["t0"]) =
      ["lons", "lats", "times", "bounds", "valueRange"] ∧
    "nlat" ∉ JVal.keys (jsonMetadata [10, -5] [0, 190] ["t0"]) ∧
    "nlon" ∉ JVal.keys (jsonMetadata [10, -5] [0, 190] ["t0"]) ∧
    "ntimes" ∉ JVal.keys (jsonMetadata [10, -5] [0, 190] ["t0"]) := by
  refine ⟨rfl, ?_, ?_, ?_⟩ <;> decide

/-- C7 (amended): the binary converter's metadata contains the grid
dimensions, the coordinate arrays (longitudes sorted strictly ascending,
latitudes in their serialized order), the time labels, the spatial bounds
and the value-encoding description; the JSON converter's metadata contains
the coordinate arrays, time labels, bounds and value range, but no explicit
grid-dimension fields. -/
theorem metadata_fields (lats lons : List ℚ) (times : List String)
    (hd : lons.Nodup) (hr : ∀ x ∈ lons, 0 ≤ x ∧ x < 360) :
    (JVal.field "nlat" (binMetadata lats lons times) =
        some (.jint lats.length) ∧
     JVal.field "nlon" (binMetadata lats lons times) =
        some (.jint lons.length) ∧
     JVal.field "ntimes" (binMetadata lats lons times) =
        some (.jint times.length) ∧
     JVal.field "times" (binMetadata lats lons times) =
        some (.jarr (times.map (fun t => .jstr (t.take 7)))) ∧
     JVal.field "lats" (binMetadata lats lons times) =
        some (.jarr ((latsSorted lats).map .jnum)) ∧
     JVal.field "lons" (binMetadata lats lons times) =
        some (.jarr ((lonsSortedBin lons).map .jnum)) ∧
     (JVal.field "bounds" (binMetadata lats lons times)).isSome = true ∧
     (JVal.field "encoding" (binMetadata lats lons times)).isSome = true) ∧
    (lonsSortedBin lons).Pairwise (· < ·) ∧
    (JVal.field "lons" (jsonMetadata lats lons times) =
        some (.jarr ((lonsSortedJson lons).map .jnum)) ∧
     JVal.field "lats" (jsonMetadata lats lons times) =
        some (.jarr (lats.map .jnum)) ∧
     JVal.field "times" (jsonMetadata lats lons times) =
        some (.jarr (times.map (fun t => .jstr (t.take 7)))) ∧
     (JVal.field "bounds" (jsonMetadata lats lons times)).isSome = true ∧
     (JVal.field "valueRange" (jsonMetadata lats lons times)).isSome = true) ∧
    (lonsSortedJson lons).Pairwise (· < ·) ∧
    JVal.keys (jsonMetadata lats lons times) =
      ["lons", "lats", "times", "bounds", "valueRange"] := by
  refine ⟨⟨rfl, rfl, rfl, rfl, rfl, rfl, rfl, rfl⟩,
    lonsSortedBin_ascending lons hd hr, ⟨rfl, rfl, rfl, rfl, rfl⟩, ?_, rfl⟩
  rw [lonsSortedJson_eq_bin]
  exact lonsSortedBin_ascending lons hd hr

/-- C7 (amended) witness at a concrete grid. -/
theorem metadata_fields_witness :
    (([(0 : ℚ), 190].Nodup) ∧ (∀ x ∈ [(0 : ℚ), 190], 0 ≤ x ∧ x < 360)) ∧
    ((JVal.field "nlat" (binMetadata [10, -5] [0, 190] ["t0"]) =
        some (.jint ([(10 : ℚ), -5]).length) ∧
      JVal.field "nlon" (binMetadata [10, -5] [0, 190] ["t0"]) =
        some (.jint ([(0 : ℚ), 190]).length) ∧
      JVal.field "ntimes" (binMetadata [10, -5] [0, 190] ["t0"]) =
        some (.jint (["t0"]).length) ∧
      JVal.field "times" (binMetadata [10, -5] [0, 190] ["t0"]) =
        some (.jarr ((["t0"]).map (fun t => .jstr (t.take 7)))) ∧
      JVal.field "lats" (binMetadata [10, -5] [0, 190] ["t0"]) =
        some (.jarr ((latsSorted [10, -5]).map .jnum)) ∧
      JVal.field "lons" (binMetadata [10, -5] [0, 190] ["t0"]) =
        some (.jarr ((lonsSortedBin [0, 190]).map .jnum)) ∧
      (JVal.field "bounds" (binMetadata [10, -5] [0, 190] ["t0"])).isSome = true ∧
      (JVal.field "encoding" (binMetadata [10, -5] [0, 190] ["t0"])).isSome = true) ∧
     (lonsSortedBin [0, 190]).Pairwise (· < ·) ∧
     (JVal.field "lons" (jsonMetadata [10, -5] [0, 190] ["t0"]) =
        some (.jarr ((lonsSortedJson [0, 190]).map .jnum)) ∧
      JVal.field "lats" (jsonMetadata [10, -5] [0, 190] ["t0"]) =
        some (.jarr (([(10 : ℚ), -5]).map .jnum)) ∧
      JVal.field "times" (jsonMetadata [10, -5] [0, 190] ["t0"]) =
        some (.jarr ((["t0"]).map (fun t => .jstr (t.take 7)))) ∧
      (JVal.field "bounds" (jsonMetadata [10, -5] [0, 190] ["t0"])).isSome = true ∧
      (JVal.field "valueRange" (jsonMetadata [10, -5] [0, 190] ["t0"])).isSome =
        true) ∧
     (lonsSortedJson [0, 190]).Pairwise (· < ·) ∧
     JVal.keys (jsonMetadata [10, -5] [0, 190] ["t0"]) =
       ["lons", "lats", "times", "bounds", "valueRange"]) :=
  ⟨⟨by decide, by decide⟩,
   metadata_fields [10, -5] [0, 190] ["t0"] (by decide) (by decide)⟩

/-- C10: if the data file is already present, `download_data` leaves the
filesystem unchanged and performs no HTTP request and no file write. -/
theorem download_skips_when_present (fs : List String) (h : DATA_FILE ∈ fs) :
    (download_data fs).1 = fs ∧
    (∀ u, Effect.httpGet u ∉ (download_data fs).2) ∧
    (∀ p, Effect.fileWrite p ∉ (download_data fs).2) := by
  simp [download_data, h]

/-- C10 witness on a filesystem already holding the data file. -/
theorem download_skips_when_present_witness :
    DATA_FILE ∈ ["sst.mnmean.nc"] ∧
    ((download_data ["sst.mnmean.nc"]).1 = ["sst.mnmean.nc"] ∧
     (∀ u, Effect.httpGet u ∉ (download_data ["sst.mnmean.nc"]).2) ∧
     (∀ p, Effect.fileWrite p ∉ (download_data ["sst.mnmean.nc"]).2)) :=
  ⟨by simp [DATA_FILE],
   download_skips_when_present ["sst.mnmean.nc"] (by simp [DATA_FILE])⟩

end NetCDF
